import Mathlib

/-!
Shallow embedding of the locally authored logic of the notebook
`Classifying_TESS_flares_with_CNNs.ipynb`:

* `remove_nans` (notebook cell 11): the NaN filter over a 3-D example array;
* numpy fancy indexing `a[idx]` used to subset data and label arrays;
* the computational core of `plot_confusion_matrix` (notebook cell 22):
  predict, threshold at 0.5, sklearn `confusion_matrix` with `labels=[0, 1]`,
  row-wise normalization;
* the layer sequence of the CNN model definition (notebook cell 15).

Floating-point values that may be NaN are modelled as `NpFloat` (a rational or
NaN); probabilities and normalized matrix entries are rationals.
-/

namespace HelloUniverse

/-- A numpy floating-point value: either an ordinary (finite) number, modelled
as a rational, or NaN.  Infinities play no role in the claims considered. -/
inductive NpFloat where
  | num (q : ℚ)
  | nan
deriving DecidableEq

/-- Model of `np.isnan` on a single value. -/
def isnan : NpFloat → Bool
  | .nan => true
  | .num _ => false

/-- A 3-D example array: a list of 2-D slices `input_data[k, :, :]`. -/
abbrev Array3 := List (List (List NpFloat))

/-- Model of `len(s[np.isnan(s)])` for a 2-D slice `s`: the number of NaN
entries of the slice. -/
def sliceNanCount (s : List (List NpFloat)) : Nat :=
  ((s.flatten).filter isnan).length

/-- Notebook cell 11, `remove_nans`: determine the indices `k` in
`range(np.shape(input_data)[0])` whose slice `input_data[k, :, :]` contains
zero NaN values.  The Python loop appending such `k` to `idx` is rendered as a
filter over `List.range`. -/
def remove_nans (input_data : Array3) : List Nat :=
  (List.range input_data.length).filter
    (fun k => sliceNanCount (input_data.getD k []) == 0)

/-- Semantic statement that a 2-D slice contains at least one NaN value
(used to state claims about `remove_nans`; the code itself counts NaNs). -/
def sliceHasNan (s : List (List NpFloat)) : Prop :=
  ∃ row ∈ s, ∃ v ∈ row, isnan v = true

/-- Model of numpy fancy indexing `xs[idx]` with an integer index list:
the selected elements in order; `none` models the `IndexError` raised when
some index is out of range. -/
def npIndex {α : Type} (xs : List α) : List Nat → Option (List α)
  | [] => some []
  | k :: idx => do
    let a ← xs[k]?
    let ys ← npIndex xs idx
    some (a :: ys)

/-- Notebook cell 22, the line converting `predictions` to int32 by the
comparison `predictions > 0.5`: threshold a predicted probability at 0.5 to a
binary class label. -/
def binarize (p : ℚ) : ℤ :=
  if p > 1 / 2 then 1 else 0

/-- Number of samples whose true label is `a` and predicted label is `b`. -/
def confusion_count (yTrue yPred : List ℤ) (a b : ℤ) : Nat :=
  ((yTrue.zip yPred).filter (fun tp => tp.1 == a && tp.2 == b)).length

/-- Model of `sklearn.metrics.confusion_matrix(y_true, y_pred, labels=ls)`:
entry `(i, j)` counts the samples with true label `ls[i]` and predicted label
`ls[j]`. -/
def confusion_matrix (yTrue yPred : List ℤ) (ls : List ℤ) : List (List Nat) :=
  ls.map (fun a => ls.map (fun b => confusion_count yTrue yPred a b))

/-- Model of `cm.sum(axis=1)`: the list of row sums, i.e. the divisors used by
the row normalization `cm / cm.sum(axis=1)[:, np.newaxis]`. -/
def rowDivisors (cm : List (List Nat)) : List Nat :=
  cm.map List.sum

/-- Notebook cell 22, line `cm_norm = cm / cm.sum(axis=1)[:, np.newaxis]`
(after the cast of `cm` to float): divide every entry of each row by the sum
of that row. -/
def rowNormalize (cm : List (List Nat)) : List (List ℚ) :=
  cm.map (fun row => row.map (fun x : Nat => (x : ℚ) / ((row.sum : Nat) : ℚ)))

/-- Computational core of notebook cell 22, `plot_confusion_matrix`, up to and
including `cm_norm`; the remaining lines of the function only render the
heatmap.  The model `cnn` is abstracted as a function from one input example
to its predicted probability, so `cnn.predict(input_data)` is a map. -/
def plot_confusion_matrix_cm {α : Type} (cnn : α → ℚ) (input_data : List α)
    (input_labels : List ℤ) : List (List ℚ) :=
  let predictions := input_data.map cnn
  let predictions := predictions.map binarize
  let cm := confusion_matrix input_labels predictions [0, 1]
  rowNormalize cm

/-- Spec-side description of the thresholding step: probabilities strictly
above 0.5 become class 1, all others class 0. -/
def spec_threshold (p : ℚ) : ℤ :=
  if p > 1 / 2 then 1 else 0

/-- Spec-side description of the confusion-matrix helper as the composition
of its four described steps: predict, threshold at 0.5, 2x2 confusion matrix
over classes `[0, 1]`, row-wise normalization. -/
def spec_pipeline {α : Type} (cnn : α → ℚ) (data : List α)
    (labels : List ℤ) : List (List ℚ) :=
  rowNormalize (confusion_matrix labels ((data.map cnn).map spec_threshold) [0, 1])

/-- Activation functions appearing in the model definition. -/
inductive Activation where
  | relu
  | sigmoid
deriving DecidableEq

/-- One layer of the Keras model, recording the constructor arguments that the
notebook passes. -/
inductive Layer where
  | inputL (shape : Nat × Nat)
  | conv1D (filters kernelSize : Nat) (activation : Activation) (paddingSame : Bool)
  | maxPooling1D (poolSize : Nat)
  | dropoutL (rate : ℚ)
  | flattenL
  | dense (units : Nat) (activation : Activation)
deriving DecidableEq

/-- The kind of a layer, forgetting its parameters. -/
inductive LayerKind where
  | inputK
  | convK
  | poolK
  | dropoutK
  | flattenK
  | denseK
deriving DecidableEq

/-- Forget the parameters of a layer. -/
def layerKind : Layer → LayerKind
  | .inputL _ => .inputK
  | .conv1D _ _ _ _ => .convK
  | .maxPooling1D _ => .poolK
  | .dropoutL _ => .dropoutK
  | .flattenL => .flattenK
  | .dense _ _ => .denseK

/-- Notebook cell 15: the layer sequence of the model `cnn`, transcribed from
the chain `x_in → c0 → b0 → d0 → c1 → b1 → d1 → f → z0 → d2 → y_out` with
`filter1 = 16`, `filter2 = 64`, `dense = 32`, `dropout = 0.1`.  The input
window length `np.shape(ds.train_data)[1]` is kept as a parameter `w`. -/
def cnn_layers (w : Nat) : List Layer :=
  [ .inputL (w, 1),
    .conv1D 7 16 .relu true,
    .maxPooling1D 2,
    .dropoutL (1 / 10),
    .conv1D 3 64 .relu true,
    .maxPooling1D 2,
    .dropoutL (1 / 10),
    .flattenL,
    .dense 32 .relu,
    .dropoutL (1 / 10),
    .dense 1 .sigmoid ]

/-! ## Theorems -/

/-- Every index returned by `remove_nans` is a valid first-dimension index. -/
theorem remove_nans_mem_lt (d : Array3) :
    ∀ k ∈ remove_nans d, k < d.length := fun _ hk =>
  List.mem_range.mp (List.mem_filter.mp hk).1

/-- Fancy indexing with in-range indices succeeds, returns one element per
index, and the element at position `i` of the result is the element of `xs`
at the `i`-th index. -/
theorem npIndex_spec {α : Type} (xs : List α) (idx : List Nat)
    (h : ∀ k ∈ idx, k < xs.length) :
    ∃ ys, npIndex xs idx = some ys ∧ ys.length = idx.length ∧
      ∀ (i k : Nat), idx[i]? = some k → ys[i]? = xs[k]? := by
  induction idx with
  | nil => exact ⟨[], rfl, rfl, fun i k hik => by simp at hik⟩
  | cons k idx ih =>
    have hk : k < xs.length := h k (List.mem_cons_self _ _)
    obtain ⟨ys, hys, hlen, hpt⟩ := ih fun j hj => h j (List.mem_cons_of_mem _ hj)
    refine ⟨xs[k] :: ys, ?_, by simp [hlen], ?_⟩
    · simp [npIndex, List.getElem?_eq_getElem hk, hys]
    · intro i j hij
      cases i with
      | zero =>
        simp only [List.getElem?_cons_zero, Option.some.injEq] at hij
        subst hij
        simp [List.getElem?_eq_getElem hk]
      | succ i =>
        simp only [List.getElem?_cons_succ] at hij ⊢
        exact hpt i j hij

/-- Shifting: indexing a cons cell with successor indices indexes the tail. -/
theorem npIndex_map_succ {α : Type} (a : α) (xs : List α) (idx : List Nat) :
    npIndex (a :: xs) (idx.map Nat.succ) = npIndex xs idx := by
  induction idx with
  | nil => rfl
  | cons k idx ih => simp [npIndex, ih]

/-- Selecting the indices of `range` that satisfy a pointwise predicate is the
same as filtering the list by that predicate. -/
theorem npIndex_filter_range {α : Type} (p : α → Bool) (dflt : α) (xs : List α) :
    npIndex xs ((List.range xs.length).filter (fun k => p (xs.getD k dflt))) =
      some (xs.filter p) := by
  induction xs with
  | nil => rfl
  | cons a xs ih =>
    rw [List.length_cons, List.range_succ_eq_map]
    simp only [List.getD_eq_getElem?_getD] at ih ⊢
    cases hpa : p a <;>
      simp [List.filter_cons, hpa, List.filter_map, Function.comp_def,
        npIndex, npIndex_map_succ, ih]

/-- Selecting with the index list of `remove_nans` keeps exactly the NaN-free
slices, in their original order. -/
theorem npIndex_remove_nans (d : Array3) :
    npIndex d (remove_nans d) = some (d.filter (fun s => sliceNanCount s == 0)) :=
  npIndex_filter_range (fun s => sliceNanCount s == 0) [] d

/-- C1: for every 3-D example array `d`, an index `k` is in the list returned
by `remove_nans` exactly when it is a valid first-dimension index and the
slice `d[k, :, :]` contains no NaN value: the filter is sound and complete. -/
theorem remove_nans_sound_complete (d : Array3) (k : Nat) :
    k ∈ remove_nans d ↔ k < d.length ∧ ¬ sliceHasNan (d.getD k []) := by
  simp only [remove_nans, List.mem_filter, List.mem_range, beq_iff_eq, sliceNanCount,
    List.length_eq_zero, List.filter_eq_nil_iff, sliceHasNan, List.mem_flatten]
  constructor
  · rintro ⟨hk, h⟩
    refine ⟨hk, ?_⟩
    rintro ⟨row, hrow, v, hv, hnan⟩
    exact absurd hnan (by simpa using h v ⟨row, hrow, hv⟩)
  · rintro ⟨hk, h⟩
    refine ⟨hk, ?_⟩
    intro v hv hnan
    obtain ⟨row, hrow, hvrow⟩ := hv
    exact h ⟨row, hrow, v, hvrow, hnan⟩

/-- C3: on a zero-length example array, `remove_nans` returns the empty index
list (and, being a total function, raises nothing). -/
theorem remove_nans_empty : remove_nans ([] : Array3) = [] := rfl

/-- C7: the model is the exact layer sequence input, convolution, max-pooling,
dropout, convolution, max-pooling, dropout, flatten, dense, dropout, and a
final dense layer with sigmoid activation producing one output, for every
input window length. -/
theorem cnn_layers_sequence (w : Nat) :
    (cnn_layers w).map layerKind =
      [.inputK, .convK, .poolK, .dropoutK, .convK, .poolK, .dropoutK,
       .flattenK, .denseK, .dropoutK, .denseK] ∧
    (cnn_layers w).getLast? = some (.dense 1 .sigmoid) := ⟨rfl, rfl⟩

/-- C4: the computation of the confusion-matrix helper is exactly the composition
of the four described steps — predict, threshold at 0.5, 2x2 confusion matrix
over classes `[0, 1]`, row-wise normalization — and its result is a 2x2
matrix. -/
theorem plot_confusion_matrix_cm_spec {α : Type} (cnn : α → ℚ)
    (data : List α) (labels : List ℤ) :
    plot_confusion_matrix_cm cnn data labels = spec_pipeline cnn data labels ∧
    (plot_confusion_matrix_cm cnn data labels).map List.length = [2, 2] :=
  ⟨rfl, rfl⟩

/-- C9: the binarization step uses a strict comparison with 0.5: a predicted
probability not above 0.5 (in particular exactly 0.5) maps to class 0, and
only probabilities strictly above 0.5 map to class 1. -/
theorem binarize_strict_at_half :
    binarize (1 / 2) = 0 ∧ (∀ p : ℚ, p ≤ 1 / 2 → binarize p = 0) ∧
      ∀ p : ℚ, 1 / 2 < p → binarize p = 1 := by
  refine ⟨by norm_num [binarize], fun p hp => ?_, fun p hp => ?_⟩
  · rw [binarize, if_neg (not_lt.mpr hp)]
  · rw [binarize, if_pos hp]

/-- Witness for C9: evaluating the theorem at 1/4 and 3/4. -/
theorem binarize_strict_at_half_w :
    binarize (1 / 4) = 0 ∧ binarize (3 / 4) = 1 :=
  ⟨binarize_strict_at_half.2.1 (1 / 4) (by norm_num),
   binarize_strict_at_half.2.2 (3 / 4) (by norm_num)⟩

/-- C6: there is an input to the confusion-matrix helper on which one of the
two classes has zero true examples among the labels, and there the row sum
used as the divisor of that row by the normalization `cm / cm.sum(axis=1)` is
zero: the division-by-zero edge case is reachable and unguarded. -/
theorem normalization_divides_by_zero :
    ∃ (cnn : ℤ → ℚ) (data : List ℤ) (labels : List ℤ),
      labels ≠ [] ∧ labels.count 1 = 0 ∧
      (rowDivisors
        (confusion_matrix labels ((data.map cnn).map binarize) [0, 1])).getD 1 0 = 0 := by
  refine ⟨fun _ => 1, [7, 7], [0, 0], by decide, by decide, ?_⟩
  norm_num [rowDivisors, confusion_matrix, confusion_count, binarize]

/-- C5: whenever the thresholded predictions of the model coincide exactly with
the true labels `[0, 1, 0, 1]`, the normalized confusion matrix computed by
the helper is the identity: 1 on the diagonal and 0 off it. -/
theorem perfect_prediction_identity {α : Type} (cnn : α → ℚ) (data : List α)
    (h : (data.map cnn).map binarize = [0, 1, 0, 1]) :
    plot_confusion_matrix_cm cnn data [0, 1, 0, 1] = [[1, 0], [0, 1]] := by
  simp only [plot_confusion_matrix_cm]
  rw [h]
  norm_num [rowNormalize, confusion_matrix, confusion_count]

/-- Witness for C5: a concrete model and data whose thresholded predictions
are exactly `[0, 1, 0, 1]`. -/
theorem perfect_prediction_identity_w :
    (([1, 2, 3, 4] : List ℤ).map (fun x : ℤ => if x % 2 = 0 then (9 : ℚ) / 10 else 1 / 10)).map
        binarize = [0, 1, 0, 1] ∧
    plot_confusion_matrix_cm (fun x : ℤ => if x % 2 = 0 then (9 : ℚ) / 10 else 1 / 10)
        [1, 2, 3, 4] [0, 1, 0, 1] = [[1, 0], [0, 1]] :=
  ⟨by norm_num [binarize], perfect_prediction_identity _ [1, 2, 3, 4] (by norm_num [binarize])⟩

/-- C2: selecting a data array and a label array of equal first-dimension
length with the same index list returned by `remove_nans` preserves pairwise
correspondence: both selections succeed, have equal length, and at every
position `i` of the filtered result the data element and the label are the
ones that sat together at the same original index `k`. -/
theorem filtering_alignment {β : Type} (data : Array3) (labels : List β)
    (hlen : labels.length = data.length) :
    ∃ d l, npIndex data (remove_nans data) = some d ∧
      npIndex labels (remove_nans data) = some l ∧ d.length = l.length ∧
      ∀ (i k : Nat), (remove_nans data)[i]? = some k →
        d[i]? = data[k]? ∧ l[i]? = labels[k]? := by
  obtain ⟨d, hd, hdl, hdp⟩ := npIndex_spec data (remove_nans data) (remove_nans_mem_lt data)
  obtain ⟨l, hl, hll, hlp⟩ := npIndex_spec labels (remove_nans data)
    fun k hk => hlen ▸ remove_nans_mem_lt data k hk
  exact ⟨d, l, hd, hl, by rw [hdl, hll], fun i k hik => ⟨hdp i k hik, hlp i k hik⟩⟩

/-- Witness for C2: a one-example array with its one label. -/
theorem filtering_alignment_w :
    ([(0 : ℤ)] : List ℤ).length = ([[[NpFloat.num 1]]] : Array3).length ∧
    (∃ d l, npIndex ([[[NpFloat.num 1]]] : Array3) (remove_nans [[[NpFloat.num 1]]]) = some d ∧
      npIndex [(0 : ℤ)] (remove_nans [[[NpFloat.num 1]]]) = some l ∧ d.length = l.length ∧
      ∀ (i k : Nat), (remove_nans ([[[NpFloat.num 1]]] : Array3))[i]? = some k →
        d[i]? = ([[[NpFloat.num 1]]] : Array3)[k]? ∧ l[i]? = [(0 : ℤ)][k]?) :=
  ⟨rfl, filtering_alignment [[[NpFloat.num 1]]] [(0 : ℤ)] rfl⟩

/-- C8: the index list returned by `remove_nans` is strictly increasing and
bounded by the first-dimension length, and selecting with it yields a
sublist (a subsequence in the original relative order) of the example
array. -/
theorem remove_nans_indices (d : Array3) :
    List.Pairwise (· < ·) (remove_nans d) ∧
    (∀ k ∈ remove_nans d, k < d.length) ∧
    ∀ ys, npIndex d (remove_nans d) = some ys → ys.Sublist d := by
  refine ⟨(List.pairwise_lt_range _).filter _, remove_nans_mem_lt d, ?_⟩
  intro ys hys
  rw [npIndex_remove_nans] at hys
  injection hys with h
  subst h
  exact List.filter_sublist d

/-- Witness for C8: a two-example array whose second slice contains a NaN;
the selection keeps only the first slice, a sublist of the array. -/
theorem remove_nans_indices_w :
    0 < ([[[NpFloat.num 1]], [[NpFloat.nan]]] : Array3).length ∧
    List.Sublist [[[NpFloat.num 1]]] ([[[NpFloat.num 1]], [[NpFloat.nan]]] : Array3) :=
  ⟨(remove_nans_indices [[[NpFloat.num 1]], [[NpFloat.nan]]]).2.1 0 (by decide),
   (remove_nans_indices [[[NpFloat.num 1]], [[NpFloat.nan]]]).2.2 [[[NpFloat.num 1]]] (by decide)⟩

/-- Splitting a filtered count over the two possible predicted labels. -/
theorem filter_pred_split (i : ℤ) :
    ∀ l : List (ℤ × ℤ), (∀ x ∈ l, x.2 = 0 ∨ x.2 = 1) →
      (l.filter (fun x => x.1 == i && x.2 == 0)).length +
        (l.filter (fun x => x.1 == i && x.2 == 1)).length =
        (l.filter (fun x => x.1 == i)).length
  | [], _ => rfl
  | y :: l, h => by
    have ih := filter_pred_split i l fun x hx => h x (List.mem_cons_of_mem _ hx)
    rcases h y (List.mem_cons_self _ _) with h2 | h2 <;>
      by_cases h1 : y.1 = i <;>
      simp [List.filter_cons, h1, h2] <;> omega

/-- With equally long lists, counting zip pairs by their first component is
counting in the first list. -/
theorem zip_filter_fst_length (i : ℤ) :
    ∀ (l₁ l₂ : List ℤ), l₁.length = l₂.length →
      ((l₁.zip l₂).filter (fun x => x.1 == i)).length = (l₁.filter (· == i)).length
  | [], [], _ => rfl
  | [], _ :: _, h => by simp at h
  | _ :: _, [], h => by simp at h
  | a :: l₁, b :: l₂, h => by
    have ih := zip_filter_fst_length i l₁ l₂ (by simpa using h)
    by_cases ha : a = i <;> simp [List.zip_cons_cons, List.filter_cons, ha, ih]

/-- Under binary predictions of matching length, the two entries of row `i`
of the confusion matrix add up to the number of true labels equal to `i`. -/
theorem confusion_row_total (labels preds : List ℤ) (i : ℤ)
    (hlen : labels.length = preds.length)
    (hbin : ∀ x ∈ labels.zip preds, x.2 = 0 ∨ x.2 = 1) :
    confusion_count labels preds i 0 + confusion_count labels preds i 1 =
      labels.count i := by
  rw [confusion_count, confusion_count, filter_pred_split i _ hbin,
    zip_filter_fst_length i _ _ hlen, List.count_eq_countP,
    List.countP_eq_length_filter]

/-- Sum of a two-entry row divided entrywise by its nonzero total is 1. -/
theorem normalized_row_sum (c0 c1 : Nat) (h : c0 + c1 ≠ 0) :
    (c0 : ℚ) / (((c0 + c1 : Nat)) : ℚ) + (c1 : ℚ) / (((c0 + c1 : Nat)) : ℚ) = 1 := by
  rw [div_add_div_same, show ((c0 : ℚ) + c1) = ((c0 + c1 : Nat) : ℚ) by push_cast; ring]
  exact div_self (Nat.cast_ne_zero.mpr h)

/-- C10: whenever each of the classes 0 and 1 has at least one true example
among the labels (and labels and data agree in length), each of the two rows
of the normalized confusion matrix computed by the helper sums to exactly 1. -/
theorem confusion_rows_sum_to_one {α : Type} (cnn : α → ℚ) (data : List α)
    (labels : List ℤ) (hlen : labels.length = data.length)
    (h0 : 0 < labels.count 0) (h1 : 0 < labels.count 1) :
    ((plot_confusion_matrix_cm cnn data labels).getD 0 []).sum = 1 ∧
    ((plot_confusion_matrix_cm cnn data labels).getD 1 []).sum = 1 := by
  have hplen : labels.length = ((data.map cnn).map binarize).length := by
    simp [hlen]
  have hbin : ∀ x ∈ labels.zip ((data.map cnn).map binarize), x.2 = 0 ∨ x.2 = 1 := by
    intro x hx
    have hx2 := (List.of_mem_zip hx).2
    simp only [List.mem_map] at hx2
    obtain ⟨q, -, hq⟩ := hx2
    rw [← hq, binarize]
    split
    · exact Or.inr rfl
    · exact Or.inl rfl
  have e0 := confusion_row_total labels ((data.map cnn).map binarize) 0 hplen hbin
  have e1 := confusion_row_total labels ((data.map cnn).map binarize) 1 hplen hbin
  have hne0 : confusion_count labels ((data.map cnn).map binarize) 0 0 +
      confusion_count labels ((data.map cnn).map binarize) 0 1 ≠ 0 := by omega
  have hne1 : confusion_count labels ((data.map cnn).map binarize) 1 0 +
      confusion_count labels ((data.map cnn).map binarize) 1 1 ≠ 0 := by omega
  refine ⟨?_, ?_⟩
  · simp only [plot_confusion_matrix_cm, confusion_matrix, rowNormalize, List.map_cons,
      List.map_nil, List.getD_cons_zero, List.getD_cons_succ, List.sum_cons, List.sum_nil,
      add_zero, Nat.add_zero]
    exact normalized_row_sum _ _ hne0
  · simp only [plot_confusion_matrix_cm, confusion_matrix, rowNormalize, List.map_cons,
      List.map_nil, List.getD_cons_zero, List.getD_cons_succ, List.sum_cons, List.sum_nil,
      add_zero, Nat.add_zero]
    exact normalized_row_sum _ _ hne1

/-- Witness for C10: two examples with labels `[0, 1]` and a constant model. -/
theorem confusion_rows_sum_to_one_w :
    ([(0 : ℤ), 1].length = ([(1 : ℤ), 2]).length) ∧
    0 < ([(0 : ℤ), 1]).count 0 ∧ 0 < ([(0 : ℤ), 1]).count 1 ∧
    (((plot_confusion_matrix_cm (fun _ : ℤ => (0 : ℚ)) [1, 2] [0, 1]).getD 0 []).sum = 1 ∧
     ((plot_confusion_matrix_cm (fun _ : ℤ => (0 : ℚ)) [1, 2] [0, 1]).getD 1 []).sum = 1) :=
  ⟨rfl, by decide, by decide,
   confusion_rows_sum_to_one (fun _ : ℤ => (0 : ℚ)) [1, 2] [0, 1] rfl (by decide) (by decide)⟩

end HelloUniverse
